import Mathlib

/-!
# Verification of the pdf2md task/cache/storage core

A shallow embedding of the `pdf2md` repository's core
(`app/services/converter.py`, `app/services/cache.py`,
`app/storage/local.py`, `app/api/routes.py`) together with theorems
settling the specification's claims about it.

Conventions:
* Python `bytes` values are `List Nat` (each entry a byte value).
* Machine integers are `Nat` with explicit `% 2^32` where the source
  relies on 32-bit wraparound (SHA-256).
* The external collaborators (pypdf metadata extraction, the docling
  engine) are oracle parameters; everything else is translated from the
  source.
-/

/- ===================== SHA-256 (hashlib.sha256) ===================== -/

/-- The modulus 2^32 for SHA-256 word arithmetic. -/
def w32 : Nat := 4294967296

/-- Right rotation of a 32-bit word held in a `Nat`. -/
def rotr32 (n x : Nat) : Nat := ((x >>> n) ||| (x <<< (32 - n))) % w32

/-- SHA-256 small sigma 0. -/
def sigmaS0 (x : Nat) : Nat := (rotr32 7 x) ^^^ (rotr32 18 x) ^^^ (x >>> 3)

/-- SHA-256 small sigma 1. -/
def sigmaS1 (x : Nat) : Nat := (rotr32 17 x) ^^^ (rotr32 19 x) ^^^ (x >>> 10)

/-- SHA-256 big sigma 0. -/
def sigmaB0 (x : Nat) : Nat := (rotr32 2 x) ^^^ (rotr32 13 x) ^^^ (rotr32 22 x)

/-- SHA-256 big sigma 1. -/
def sigmaB1 (x : Nat) : Nat := (rotr32 6 x) ^^^ (rotr32 11 x) ^^^ (rotr32 25 x)

/-- SHA-256 round constants (decimal). -/
def shaK : List Nat :=
  [1116352408, 1899447441, 3049323471, 3921009573,
   961987163, 1508970993, 2453635748, 2870763221,
   3624381080, 310598401, 607225278, 1426881987,
   1925078388, 2162078206, 2614888103, 3248222580,
   3835390401, 4022224774, 264347078, 604807628,
   770255983, 1249150122, 1555081692, 1996064986,
   2554220882, 2821834349, 2952996808, 3210313671,
   3336571891, 3584528711, 113926993, 338241895,
   666307205, 773529912, 1294757372, 1396182291,
   1695183700, 1986661051, 2177026350, 2456956037,
   2730485921, 2820302411, 3259730800, 3345764771,
   3516065817, 3600352804, 4094571909, 275423344,
   430227734, 506948616, 659060556, 883997877,
   958139571, 1322822218, 1537002063, 1747873779,
   1955562222, 2024104815, 2227730452, 2361852424,
   2428436474, 2756734187, 3204031479, 3329325298]

/-- The eight 32-bit words of a SHA-256 chaining value. -/
structure Hash8 where
  a : Nat
  b : Nat
  c : Nat
  d : Nat
  e : Nat
  f : Nat
  g : Nat
  h : Nat
deriving Repr, DecidableEq

/-- SHA-256 initial hash value (decimal). -/
def shaInit : Hash8 :=
  ⟨1779033703, 3144134277, 1013904242, 2773480762,
   1359893119, 2600822924, 528734635, 1541459225⟩

/-- Extend 16 message words to the 64-word schedule. -/
def msgSched (ws : List Nat) : List Nat :=
  (List.range 48).foldl
    (fun acc _ =>
      let n := acc.length
      let wt := (sigmaS1 (acc.getD (n - 2) 0) + acc.getD (n - 7) 0 +
                 sigmaS0 (acc.getD (n - 15) 0) + acc.getD (n - 16) 0) % w32
      acc ++ [wt])
    ws

/-- One SHA-256 round. -/
def shaRound (st : Hash8) (kw : Nat × Nat) : Hash8 :=
  let t1 := (st.h + sigmaB1 st.e + ((st.e &&& st.f) ^^^ ((w32 - 1 - st.e) &&& st.g))
             + kw.1 + kw.2) % w32
  let t2 := (sigmaB0 st.a + ((st.a &&& st.b) ^^^ (st.a &&& st.c) ^^^ (st.b &&& st.c))) % w32
  ⟨(t1 + t2) % w32, st.a, st.b, st.c, (st.d + t1) % w32, st.e, st.f, st.g⟩

/-- Compress one 16-word block into the chaining value. -/
def shaCompress (st : Hash8) (block : List Nat) : Hash8 :=
  let w := msgSched block
  let r := (shaK.zip w).foldl shaRound st
  ⟨(st.a + r.a) % w32, (st.b + r.b) % w32, (st.c + r.c) % w32, (st.d + r.d) % w32,
   (st.e + r.e) % w32, (st.f + r.f) % w32, (st.g + r.g) % w32, (st.h + r.h) % w32⟩

/-- Big-endian bytes of a value, `n` bytes wide. -/
def beBytes : Nat → Nat → List Nat
  | 0, _ => []
  | n + 1, v => beBytes n (v / 256) ++ [v % 256]

/-- SHA-256 padding: append `0x80`, zeros, and the 64-bit bit length. -/
def shaPad (msg : List Nat) : List Nat :=
  let padLen := (119 - msg.length % 64) % 64
  msg ++ 0x80 :: List.replicate padLen 0 ++ beBytes 8 ((msg.length * 8) % (w32 * w32))

/-- Group bytes into 32-bit big-endian words. -/
def toWords : List Nat → List Nat
  | b0 :: b1 :: b2 :: b3 :: rest =>
      (((b0 * 256 + b1) * 256 + b2) * 256 + b3) :: toWords rest
  | _ => []

/-- Split a byte list into 64-byte blocks (fuel-driven for kernel reduction). -/
def chunk64 : Nat → List Nat → List (List Nat)
  | 0, _ => []
  | _, [] => []
  | n + 1, l => l.take 64 :: chunk64 n (l.drop 64)

/-- The SHA-256 digest of a byte string, as eight words. -/
def sha256Words (msg : List Nat) : Hash8 :=
  let padded := shaPad msg
  ((chunk64 padded.length padded).map toWords).foldl shaCompress shaInit

/-- One lowercase hexadecimal digit. -/
def hexDigit (n : Nat) : Char :=
  if n < 10 then Char.ofNat (48 + n) else Char.ofNat (87 + n)

/-- Eight lowercase hex characters of a 32-bit word. -/
def wordHex (x : Nat) : List Char :=
  [hexDigit (x / 268435456 % 16), hexDigit (x / 16777216 % 16),
   hexDigit (x / 1048576 % 16), hexDigit (x / 65536 % 16),
   hexDigit (x / 4096 % 16), hexDigit (x / 256 % 16),
   hexDigit (x / 16 % 16), hexDigit (x % 16)]

/-- The 64 hex characters of `hashlib.sha256(msg).hexdigest()`. -/
def sha256hexList (msg : List Nat) : List Char :=
  let d := sha256Words msg
  wordHex d.a ++ wordHex d.b ++ wordHex d.c ++ wordHex d.d ++
  wordHex d.e ++ wordHex d.f ++ wordHex d.g ++ wordHex d.h

/-- Embeds `converter.get_pdf_hash`: the first 16 hex characters of the SHA-256
digest of the full byte content (`hashlib.sha256(pdf_bytes).hexdigest()[:16]`). -/
def get_pdf_hash (pdf_bytes : List Nat) : String :=
  String.mk ((sha256hexList pdf_bytes).take 16)

/-- ASCII lowercasing of one character, as Python `str.lower` acts on
the ASCII range (the only range that can influence the ASCII
comparisons below). -/
def lowerChar (c : Char) : Char :=
  if 'A' ≤ c ∧ c ≤ 'Z' then Char.ofNat (c.toNat + 32) else c

/-- Split a character list on a separator; the empty list yields one
empty segment, like Python `str.split` with an explicit separator. -/
def splitCharsAux (sep : Char) : List Char → List Char → List (List Char)
  | [], acc => [acc.reverse]
  | c :: rest, acc =>
      if c = sep then acc.reverse :: splitCharsAux sep rest []
      else splitCharsAux sep rest (c :: acc)

/- ===================== Storage path model (local.py) ===================== -/

/-- The storage root `STORAGE_DIR`, as path segments relative to `/`. -/
def STORAGE_SEGS : List String := ["storage", "output"]

/-- Split a POSIX path string into its `/`-separated segments. -/
def splitSlash (s : String) : List String :=
  (splitCharsAux '/' s.toList []).map String.mk

/-- Resolve `.`, `..` and empty segments the way the operating system
resolves them during `Path.exists()` on an absolute path whose
directories all exist (`..` above the root stays at the root). -/
def normalizeSegs (l : List String) : List String :=
  l.foldl
    (fun acc seg =>
      if seg = "." ∨ seg = "" then acc
      else if seg = ".." then acc.dropLast
      else acc ++ [seg])
    []

/-- The `pathlib` join of the task's `output_artifacts` directory with a
filename: a filename starting with `/` replaces the whole path,
otherwise its segments are appended. -/
def joinAssetPath (task_id filename : String) : List String :=
  if filename.toList.head? = some '/' then normalizeSegs (splitSlash filename)
  else normalizeSegs (STORAGE_SEGS ++ [task_id, "output_artifacts"] ++ splitSlash filename)

/-- Embeds `local.get_image_path`: joins `STORAGE_DIR / task_id /
"output_artifacts" / filename` with no validation of `filename` and
returns the path whenever the file exists.  The filesystem is a set of
normalized absolute paths. -/
def get_image_path (fs : List (List String)) (task_id filename : String) :
    Option (List String) :=
  let p := joinAssetPath task_id filename
  if fs.contains p then some p else none

/- ===================== Store model (local.py, file contents) ===================== -/

/-- Lookup in an association list keyed by strings (first match). -/
def lookupStr {α : Type} (l : List (String × α)) (k : String) : Option α :=
  (l.find? (fun p => p.1 = k)).map (·.2)

/-- Insert-or-replace in an association list keyed by strings. -/
def upsertStr {α : Type} (l : List (String × α)) (k : String) (v : α) :
    List (String × α) :=
  l.filter (fun p => p.1 ≠ k) ++ [(k, v)]

/-- The per-task files of the storage volume: the primary markdown
output `output.md` and the `output_artifacts` directory listing
(filename, content). -/
structure Store where
  markdown : List (String × String)
  artifacts : List (String × List (String × String))
deriving Repr, DecidableEq

/-- The empty storage volume. -/
def emptyStore : Store := ⟨[], []⟩

/-- Embeds `local.task_has_markdown`: whether `output.md` exists for the task. -/
def task_has_markdown (task_id : String) (st : Store) : Bool :=
  (lookupStr st.markdown task_id).isSome

/-- Embeds `local.get_markdown`: the content of `output.md`, if present. -/
def get_markdown (task_id : String) (st : Store) : Option String :=
  lookupStr st.markdown task_id

/- ============ re.sub embeddings (converter.py and local.py) ============ -/

/-- Split a character list at the first occurrence of `c`:
`splitAtChar c l = some (a, b)` iff `l = a ++ c :: b` with `c ∉ a`. -/
def splitAtChar (c : Char) : List Char → Option (List Char × List Char)
  | [] => none
  | x :: rest =>
      if x = c then some ([], rest)
      else (splitAtChar c rest).map (fun p => (x :: p.1, p.2))

/-- The literal `/output_artifacts/` looked for by the converter's regex. -/
def artPat : List Char := "/output_artifacts/".toList

/-- Whether a parenthesized run matches `[^)]+/output_artifacts/[^)]+`:
the run (which contains no `)`) decomposes as `A ++ "/output_artifacts/" ++ B`
with `A` and `B` nonempty. -/
def matchesConv (run : List Char) : Bool :=
  (List.range run.length).any
    (fun i => decide (1 ≤ i) && artPat.isPrefixOf (run.drop i) &&
              decide (i + artPat.length < run.length))

/-- Python `full_path.split('/')[-1]`: the final `/`-separated segment. -/
def lastSeg (run : List Char) : List Char :=
  ((run.reverse.takeWhile (fun c => ¬ c = '/')).reverse)

/-- The characters the converter substitutes after `](` for a matched
reference: `/api/images/{task_id}/{filename})`. -/
def replTail (task_id run : List Char) : List Char :=
  "/api/images/".toList ++ task_id ++ '/' :: lastSeg run ++ [')']

/-- One left-to-right pass of
`re.sub(r'\]\(([^)]+/output_artifacts/[^)]+)\)', replace_image_path, md)`.
The fuel argument (instantiated with the list length) only drives the
recursion; every recursive call is on a strictly shorter list. -/
def fixAux (task_id : List Char) : Nat → List Char → List Char
  | _, [] => []
  | 0, l => l
  | fuel + 1, c :: rest =>
      if c = ']' ∧ rest.head? = some '(' then
        match splitAtChar ')' rest.tail with
        | some (run, rest3) =>
            if matchesConv run then
              ']' :: '(' :: replTail task_id run ++ fixAux task_id fuel rest3
            else c :: fixAux task_id fuel rest
        | none => c :: fixAux task_id fuel rest
      else c :: fixAux task_id fuel rest

/-- Embeds `converter.convert_pdf_to_markdown`'s image-path rewrite: every
`](...)` whose content matches the engine's `output_artifacts`
convention becomes `](/api/images/{task_id}/{filename})` where
`{filename}` is the final path segment. -/
def fixImagePaths (task_id md : String) : String :=
  String.mk (fixAux task_id.toList md.toList.length md.toList)

/-- The literal `/api/images/` looked for by the zip regex. -/
def apiPat : List Char := "/api/images/".toList

/-- Match the tail of `!\[([^\]]*)\]\(/api/images/[^/]+/([^)]+)\)` after
the initial `!`: returns `(alt, filename, rest)` on a match. -/
def parseZipRef (l : List Char) : Option (List Char × List Char × List Char) :=
  if l.head? = some '[' then
    (splitAtChar ']' l.tail).bind (fun p1 =>
      if p1.2.head? = some '(' then
        if apiPat.isPrefixOf p1.2.tail then
          (splitAtChar '/' (p1.2.tail.drop apiPat.length)).bind (fun p2 =>
            if p2.1 = [] then none
            else
              (splitAtChar ')' p2.2).bind (fun p3 =>
                if p3.1 = [] then none else some (p1.1, p3.1, p3.2)))
        else none
      else none)
  else none

/-- One left-to-right pass of
`re.sub(r'!\[([^\]]*)\]\(/api/images/[^/]+/([^)]+)\)', r'![\1](images/\2)', md)`. -/
def fixZipAux : Nat → List Char → List Char
  | _, [] => []
  | 0, l => l
  | fuel + 1, c :: rest =>
      if c = '!' then
        match parseZipRef rest with
        | some (alt, fname, rest') =>
            '!' :: '[' :: alt ++ ']' :: '(' :: "images/".toList ++ fname ++
              ')' :: fixZipAux fuel rest'
        | none => c :: fixZipAux fuel rest
      else c :: fixZipAux fuel rest

/-- Embeds `local.create_markdown_zip`'s rewrite of API image paths to
bundle-relative `images/{filename}` paths. -/
def fixZipPaths (md : String) : String :=
  String.mk (fixZipAux md.toList.length md.toList)

/- ===================== create_markdown_zip (local.py) ===================== -/

/-- The image-extension allow-list checked by `create_markdown_zip`. -/
def allowedExts : List String := [".png", ".jpg", ".jpeg", ".gif", ".webp"]

/-- Index of the last occurrence of `c` in `l`, if any. -/
def lastIdxOf (c : Char) (l : List Char) : Option Nat :=
  (l.reverse.findIdx? (fun x => x = c)).map (fun j => l.length - 1 - j)

/-- Python `pathlib.PurePath.suffix` of a bare filename: `name[i:]` for
the last `.` at index `i` when `0 < i < len(name) - 1`, else `""`. -/
def pathSuffix (name : String) : String :=
  let cs := name.toList
  match lastIdxOf '.' cs with
  | some i => if 0 < i ∧ i < cs.length - 1 then String.mk (cs.drop i) else ""
  | none => ""

/-- Embeds `local.create_markdown_zip`: `None` when `output.md` is absent;
otherwise the archive entries, in order: `output.md` with API image
paths rewritten to `images/{filename}`, then one `images/{name}` entry
per `output_artifacts` file whose lowercased suffix is in the
allow-list. -/
def create_markdown_zip (task_id : String) (st : Store) :
    Option (List (String × String)) :=
  match lookupStr st.markdown task_id with
  | none => none
  | some md =>
      let files := (lookupStr st.artifacts task_id).getD []
      some (("output.md", fixZipPaths md) ::
        files.foldr
          (fun f acc =>
            if String.mk ((pathSuffix f.1).toList.map lowerChar) ∈ allowedExts then
              ("images/" ++ f.1, f.2) :: acc
            else acc)
          [])

/- ===================== Registry model (cache.py) ===================== -/

/-- A row of the `cache` table. -/
structure CacheRow where
  title : String
  format : String
  output_path : String
  created_at : Nat
deriving Repr, DecidableEq

/-- A row of the `tasks` table. -/
structure TaskRow where
  id : String
  status : String
  format : String
  title : Option String
  output_path : Option String
  error_message : Option String
  created_at : Nat
  completed_at : Option Nat
deriving Repr, DecidableEq

/-- The SQLite database: the `cache` and `tasks` tables. -/
structure DB where
  cache : List CacheRow
  tasks : List TaskRow
deriving Repr, DecidableEq

/-- The freshly initialized database. -/
def emptyDB : DB := ⟨[], []⟩

/-- Embeds `cache.get_cache_by_title`: `SELECT * FROM cache WHERE title = ? AND
format = ?` (first row). -/
def get_cache_by_title (title format : String) (db : DB) : Option CacheRow :=
  db.cache.find? (fun r => r.title = title ∧ r.format = format)

/-- Embeds `cache.create_cache`: `INSERT OR REPLACE INTO cache` on the unique
`(title, format)` pair. -/
def create_cache (title format output_path : String) (now : Nat) (db : DB) : DB :=
  { db with
    cache := db.cache.filter (fun r => ¬(r.title = title ∧ r.format = format)) ++
      [⟨title, format, output_path, now⟩] }

/-- Embeds `cache.create_task`: `INSERT INTO tasks` of a `pending` row; fails
with a uniqueness violation when the id already exists. -/
def create_task (task_id format : String) (now : Nat) (db : DB) : Except String DB :=
  if db.tasks.any (fun r => r.id = task_id) then
    .error "UNIQUE constraint failed: tasks.id"
  else
    .ok { db with tasks := db.tasks ++ [⟨task_id, "pending", format, none, none, none, now, none⟩] }

/-- Embeds `cache.get_task`: `SELECT * FROM tasks WHERE id = ?`. -/
def get_task (task_id : String) (db : DB) : Option TaskRow :=
  db.tasks.find? (fun r => r.id = task_id)

/-- Embeds `cache.update_task_status`: for `done`/`error` it sets status,
title, output_path, error_message and stamps `completed_at`; for any
other status it sets only status and title (to the passed values, which
default to `None`). -/
def update_task_status (task_id status : String)
    (title output_path error_message : Option String) (now : Nat) (db : DB) : DB :=
  { db with
    tasks := db.tasks.map (fun r =>
      if r.id = task_id then
        if status = "done" ∨ status = "error" then
          { r with status := status, title := title, output_path := output_path,
                   error_message := error_message, completed_at := some now }
        else
          { r with status := status, title := title }
      else r) }

/-- Embeds `cache.delete_old_tasks`: `DELETE FROM tasks WHERE created_at <
datetime('now', '-N days')`, returning the number of deleted rows; the
threshold timestamp is the `cutoff` parameter. -/
def delete_old_tasks (cutoff : Nat) (db : DB) : Nat × DB :=
  ((db.tasks.filter (fun r => r.created_at < cutoff)).length,
   { db with tasks := db.tasks.filter (fun r => ¬ r.created_at < cutoff) })

/- ===================== Conversion adapter (converter.py) ===================== -/

/-- The outcome of the external docling engine on a byte string: the
document name, the raw markdown (asset references in the engine's
`output_artifacts` convention), and the extracted asset files — or a
raised exception message. -/
inductive EngineOut where
  | ok (docName : String) (markdown : String) (assets : List (String × String))
  | fail (msg : String)
deriving Repr, DecidableEq

/-- Embeds `converter.convert_pdf_to_markdown`: runs the engine, derives the
title (`doc.name if doc.name else "Untitled"`), writes the markdown
with asset references rewritten by `fixImagePaths`, stores the asset
files, and returns `(success, title, error_message)`.  On an engine
exception it returns `(False, None, message)` and writes nothing. -/
def convert_pdf_to_markdown (engine : List Nat → EngineOut)
    (task_id : String) (pdf_bytes : List Nat) (st : Store) :
    (Bool × Option String × Option String) × Store :=
  match engine pdf_bytes with
  | .ok docName md assets =>
      let title := if docName = "" then "Untitled" else docName
      ((true, some title, none),
       ⟨upsertStr st.markdown task_id (fixImagePaths task_id md),
        upsertStr st.artifacts task_id assets⟩)
  | .fail msg => ((false, none, some msg), st)

/- ===================== Orchestrator (routes.py) ===================== -/

/-- Embeds `routes._process_conversion`: marks the task `processing`, runs the
conversion, then on success marks it `done` (with title and output
path) and registers the title-keyed and hash-keyed cache entries; on
failure marks it `error` with the message. -/
def process_conversion (engine : List Nat → EngineOut)
    (task_id : String) (pdf_bytes : List Nat) (content_hash : String)
    (now : Nat) (db : DB) (st : Store) : DB × Store :=
  let db1 := update_task_status task_id "processing" none none none now db
  match convert_pdf_to_markdown engine task_id pdf_bytes st with
  | ((true, t, _), st') =>
      let title := match t with
        | none => "Untitled"
        | some s => if s = "" then "Untitled" else s
      let db2 := update_task_status task_id "done" (some title)
        (some ("storage/output/" ++ task_id)) none now db1
      let db3 := create_cache title "markdown" task_id now db2
      (create_cache ("hash:" ++ content_hash) "markdown" task_id now db3, st')
  | ((false, _, err), st') =>
      (update_task_status task_id "error" none none err now db1, st')

/-- The body of a `ConvertResponse`. -/
structure ConvertResponse where
  task_id : String
  status : String
  message : String
  cached : Bool
deriving Repr, DecidableEq

instance {ε α : Type} [DecidableEq ε] [DecidableEq α] : DecidableEq (Except ε α) := fun a b =>
  match a, b with
  | .error x, .error y =>
      if h : x = y then isTrue (by rw [h]) else isFalse (fun hh => h (Except.error.inj hh))
  | .ok x, .ok y =>
      if h : x = y then isTrue (by rw [h]) else isFalse (fun hh => h (Except.ok.inj hh))
  | .error _, .ok _ => isFalse (fun hh => Except.noConfusion hh)
  | .ok _, .error _ => isFalse (fun hh => Except.noConfusion hh)

/-- The outcome of one `POST /api/convert` call: the HTTP response (an
`HTTPException` detail on the error side), the background job dispatched
(task id, bytes, content hash) if any, and the database afterwards. -/
structure SubmitResult where
  resp : Except String ConvertResponse
  job : Option (String × List Nat × String)
  db : DB
deriving Repr, DecidableEq

/-- Embeds `routes.convert_pdf`: rejects non-`.pdf` filenames and empty
content, looks the title and then the content hash up in the cache
(each hit guarded by `task_has_markdown`), and otherwise creates a
`pending` task and dispatches the background conversion.  The pypdf
metadata-title extraction (`converter.get_pdf_title`) is the oracle
parameter `metaTitle`; `if title:` treats both `None` and the empty
string as falsy. -/
def convert_pdf (metaTitle : List Nat → Option String)
    (filename : String) (pdf_bytes : List Nat) (new_id : String)
    (now : Nat) (db : DB) (st : Store) : SubmitResult :=
  if ¬ (".pdf".toList.isSuffixOf (filename.toList.map lowerChar)) then
    ⟨.error "Only PDF files are accepted", none, db⟩
  else if pdf_bytes.length = 0 then
    ⟨.error "Empty file", none, db⟩
  else
    let tryHash : SubmitResult :=
      let h := get_pdf_hash pdf_bytes
      let createNew : SubmitResult :=
        match create_task new_id "markdown" now db with
        | .error e => ⟨.error e, none, db⟩
        | .ok db' =>
            ⟨.ok ⟨new_id, "pending",
              "Conversion started. Check status with /api/status/{task_id}", false⟩,
             some (new_id, pdf_bytes, h), db'⟩
      match get_cache_by_title ("hash:" ++ h) "markdown" db with
      | some c =>
          if task_has_markdown c.output_path st then
            ⟨.ok ⟨c.output_path, "done", "Found cached conversion result", true⟩, none, db⟩
          else createNew
      | none => createNew
    match metaTitle pdf_bytes with
    | some t =>
        if t = "" then tryHash
        else
          match get_cache_by_title t "markdown" db with
          | some c =>
              if task_has_markdown c.output_path st then
                ⟨.ok ⟨c.output_path, "done", "Found cached conversion result", true⟩, none, db⟩
              else tryHash
          | none => tryHash
    | none => tryHash

/- ============ Structured markdown, for the rewrite theorems ============ -/

/-- A markdown document as a sequence of plain-text chunks and embedded
image references `![alt](path)`. -/
inductive Seg where
  | text (s : List Char)
  | img (alt path : List Char)
deriving Repr, DecidableEq

/-- Characters of one segment. -/
def renderSeg : Seg → List Char
  | .text s => s
  | .img alt path => '!' :: '[' :: alt ++ ']' :: '(' :: path ++ [')']

/-- Characters of a whole structured document. -/
def render (l : List Seg) : List Char := (l.map renderSeg).flatten

/-- Well-formedness for the converter rewrite: text chunks contain no
`]` (so no reference opener appears outside a reference), alt text
contains no `]`, and paths contain neither `)` nor `]`. -/
def wfSeg : Seg → Bool
  | .text s => decide (']' ∉ s)
  | .img alt path =>
      decide (']' ∉ alt) && decide (')' ∉ path) && decide (']' ∉ path)

/-- What the converter rewrite does to one segment: an image reference
whose path matches the `output_artifacts` convention becomes
`![alt](/api/images/{task_id}/{filename})` with `{filename}` the final
path segment; everything else is untouched. -/
def rewriteSeg (task_id : List Char) : Seg → Seg
  | .text s => .text s
  | .img alt path =>
      if matchesConv path then
        .img alt ("/api/images/".toList ++ task_id ++ '/' :: lastSeg path)
      else .img alt path

/-- A stored markdown document whose image references use the external
API scheme `/api/images/{seg}/{filename}`, as rewritten before serving. -/
inductive ZSeg where
  | text (s : List Char)
  | img (alt seg fname : List Char)
deriving Repr, DecidableEq

/-- Characters of one API-scheme segment. -/
def renderZSeg : ZSeg → List Char
  | .text s => s
  | .img alt seg fname =>
      '!' :: '[' :: alt ++ ']' :: '(' :: "/api/images/".toList ++ seg ++
        '/' :: fname ++ [')']

/-- Characters of a stored document. -/
def renderZ (l : List ZSeg) : List Char := (l.map renderZSeg).flatten

/-- Well-formedness for the bundle rewrite: text chunks contain no `!`,
alt text contains no `]`, the path segment between `/api/images/` and
the filename is nonempty and `/`-free, and the filename is nonempty and
`)`-free. -/
def wfZSeg : ZSeg → Bool
  | .text s => decide ('!' ∉ s)
  | .img alt seg fname =>
      decide (']' ∉ alt) && decide (seg ≠ []) && decide ('/' ∉ seg) &&
      decide (fname ≠ []) && decide (')' ∉ fname)

/-- What the bundle rewrite does to one segment: an API-scheme image
reference becomes the bundle-relative `![alt](images/{filename})`. -/
def rewriteZSeg : ZSeg → List Char
  | .text s => s
  | .img alt _ fname =>
      '!' :: '[' :: alt ++ ']' :: '(' :: "images/".toList ++ fname ++ [')']

/- ============ Concrete registry states and oracles for the claim
witnesses and counterexamples ============ -/

def taskInv (r : TaskRow) : Prop :=
  (r.completed_at.isSome ↔ (r.status = "done" ∨ r.status = "error")) ∧
  (r.title.isSome → r.status = "done") ∧
  (r.output_path.isSome → r.status = "done")

def dbCreated : DB :=
  match create_task "t" "markdown" 0 emptyDB with
  | .ok d => d
  | .error _ => emptyDB

def dbDone : DB :=
  update_task_status "t" "done" (some "T") (some "p") none 1 dbCreated

def dbReverted : DB :=
  update_task_status "t" "processing" none none none 2 dbDone

def dbW : DB := ⟨[], [⟨"t", "pending", "markdown", none, none, none, 0, none⟩]⟩

def metaTX : List Nat → Option String :=
  fun b => if b = [1] ∨ b = [2] then some "Report" else none

def engX : List Nat → EngineOut := fun _ => .ok "document" "body" []

def metaTW : List Nat → Option String :=
  fun b => if b = [2] then some "Doc" else none

def engW : List Nat → EngineOut := fun _ => .ok "Doc" "body" []

/- ============ Lemmas about the converter rewrite scanner ============ -/

theorem splitAtChar_some {c : Char} :
    ∀ {l a b : List Char}, splitAtChar c l = some (a, b) → l = a ++ c :: b ∧ c ∉ a := by
  intro l
  induction l with
  | nil => intro a b h; simp [splitAtChar] at h
  | cons x rest ih =>
      intro a b h
      by_cases hx : x = c
      · subst hx
        rw [splitAtChar, if_pos rfl] at h
        have h1 : ([] : List Char) = a ∧ rest = b := by
          constructor <;> [exact congrArg (·.1) (Option.some.inj h);
                           exact congrArg (·.2) (Option.some.inj h)]
        obtain ⟨ha, hb⟩ := h1
        subst ha; subst hb
        simp
      · rw [splitAtChar, if_neg hx] at h
        cases hsp : splitAtChar c rest with
        | none => rw [hsp] at h; simp at h
        | some p =>
            rw [hsp, Option.map_some'] at h
            have h1 : x :: p.1 = a ∧ p.2 = b := by
              constructor <;> [exact congrArg (·.1) (Option.some.inj h);
                               exact congrArg (·.2) (Option.some.inj h)]
            obtain ⟨ha, hb⟩ := h1
            obtain ⟨hl, hna⟩ := ih (a := p.1) (b := p.2) (by rw [hsp])
            subst ha; subst hb
            constructor
            · rw [hl]; simp
            · intro hmem
              rcases List.mem_cons.mp hmem with h | h
              · exact hx h.symm
              · exact hna h

theorem splitAtChar_append {c : Char} :
    ∀ {a : List Char} (b : List Char), c ∉ a → splitAtChar c (a ++ c :: b) = some (a, b) := by
  intro a
  induction a with
  | nil => intro b _; simp [splitAtChar]
  | cons x rest ih =>
      intro b hna
      have hx : ¬ x = c := by
        intro h; exact hna (by simp [h])
      have hrest : c ∉ rest := by
        intro h; exact hna (by simp [h])
      simp [splitAtChar, hx, ih b hrest]

theorem fixAux_nil (t : List Char) (f : Nat) : fixAux t f [] = [] := by
  cases f <;> rfl

theorem fixAux_fuel (t : List Char) :
    ∀ f g l, l.length ≤ f → l.length ≤ g → fixAux t f l = fixAux t g l := by
  intro f
  induction f with
  | zero =>
      intro g l hf _
      have : l = [] := List.eq_nil_of_length_eq_zero (Nat.le_zero.mp hf)
      subst this
      simp [fixAux_nil]
  | succ f ih =>
      intro g l hf hg
      cases l with
      | nil => simp [fixAux_nil]
      | cons c rest =>
          cases g with
          | zero => simp at hg
          | succ g =>
              simp only [List.length_cons, Nat.succ_le_succ_iff] at hf hg
              simp only [fixAux]
              by_cases hc : c = ']' ∧ rest.head? = some '('
              · rw [if_pos hc, if_pos hc]
                cases hsp : splitAtChar ')' rest.tail with
                | none =>
                    simp only [ih g rest hf hg]
                | some p =>
                    obtain ⟨run, rest3⟩ := p
                    have hdec := splitAtChar_some hsp
                    have hlen : rest3.length ≤ rest.length - 1 := by
                      obtain ⟨he, -⟩ := hdec
                      obtain ⟨c2, rest2, hr⟩ : ∃ c2 rest2, rest = c2 :: rest2 := by
                        cases rest with
                        | nil => simp at hc
                        | cons a b => exact ⟨a, b, rfl⟩
                      subst hr
                      simp at he ⊢
                      rw [he]
                      simp
                      omega
                    have hl3f : rest3.length ≤ f := by omega
                    have hl3g : rest3.length ≤ g := by omega
                    simp only [ih g rest3 hl3f hl3g, ih g rest hf hg]
              · rw [if_neg hc, if_neg hc]
                simp only [ih g rest hf hg]

theorem fixAux_clean (t : List Char) :
    ∀ (s r : List Char) (f : Nat), ']' ∉ s → (s ++ r).length ≤ f →
      fixAux t f (s ++ r) = s ++ fixAux t f r := by
  intro s
  induction s with
  | nil => intro r f _ _; simp
  | cons c s' ih =>
      intro r f hno hf
      have hc : ¬ c = ']' := fun h => hno (by simp [h])
      have hno' : ']' ∉ s' := fun h => hno (by simp [h])
      cases f with
      | zero => simp at hf
      | succ f =>
          simp only [List.cons_append, fixAux, List.append_eq]
          rw [if_neg (by intro hcontra; exact hc hcontra.1)]
          simp only [List.cons_append, List.length_cons] at hf
          rw [ih r f hno' (by omega)]
          have hr : r.length ≤ f := by
            rw [List.length_append] at hf
            omega
          rw [fixAux_fuel t f (f + 1) r hr (by omega)]

theorem fixAux_pair_match (t run r : List Char) (f : Nat)
    (hr : ')' ∉ run) (hconv : matchesConv run = true)
    (hf : (']' :: '(' :: (run ++ ')' :: r)).length ≤ f) :
    fixAux t f (']' :: '(' :: (run ++ ')' :: r)) =
      ']' :: '(' :: replTail t run ++ fixAux t f r := by
  cases f with
  | zero => simp at hf
  | succ f =>
      simp only [fixAux, List.head?_cons, List.tail_cons]
      rw [if_pos (by simp), splitAtChar_append r hr]
      simp only [hconv, if_pos]
      have hrf : r.length ≤ f := by
        simp [List.length_append] at hf
        omega
      rw [fixAux_fuel t f (f + 1) r hrf (by omega)]

theorem fixAux_pair_nomatch (t run r : List Char) (f : Nat)
    (hr : ')' ∉ run) (hb : ']' ∉ run) (hconv : matchesConv run = false)
    (hf : (']' :: '(' :: (run ++ ')' :: r)).length ≤ f) :
    fixAux t f (']' :: '(' :: (run ++ ')' :: r)) =
      ']' :: '(' :: run ++ ')' :: fixAux t f r := by
  cases f with
  | zero => simp at hf
  | succ f =>
      simp only [fixAux, List.head?_cons, List.tail_cons]
      rw [if_pos (by simp), splitAtChar_append r hr]
      simp only [hconv, Bool.false_eq_true, if_false]
      have hclean : ']' ∉ ('(' :: run) := by
        intro h
        rcases List.mem_cons.mp h with h | h
        · exact absurd h (by decide)
        · exact hb h
      have hlen : (('(' :: run) ++ ')' :: r).length ≤ f := by
        simp [List.length_append] at hf ⊢
        omega
      rw [show ('(' :: (run ++ ')' :: r)) = ('(' :: run) ++ ')' :: r from by simp]
      rw [fixAux_clean t ('(' :: run) (')' :: r) f hclean hlen]
      have hrl : (')' :: r).length ≤ f := by
        simp [List.length_append] at hf ⊢
        omega
      cases f with
      | zero => simp at hrl
      | succ f2 =>
          simp only [fixAux]
          rw [if_neg (by intro hcontra; exact absurd hcontra.1 (by decide))]
          have hr2 : r.length ≤ f2 := by
            simp at hrl
            omega
          rw [fixAux_fuel t f2 (f2 + 1 + 1) r hr2 (by omega)]
          simp

theorem fixAux_img_match (t alt path r : List Char) (f : Nat)
    (halt : ']' ∉ alt) (hpr : ')' ∉ path)
    (hconv : matchesConv path = true)
    (hf : (renderSeg (.img alt path) ++ r).length ≤ f) :
    fixAux t f (renderSeg (.img alt path) ++ r) =
      renderSeg (.img alt ("/api/images/".toList ++ t ++ '/' :: lastSeg path)) ++
        fixAux t f r := by
  have hshape : renderSeg (.img alt path) ++ r =
      ('!' :: '[' :: alt) ++ (']' :: '(' :: (path ++ ')' :: r)) := by
    simp [renderSeg]
  have hclean : ']' ∉ ('!' :: '[' :: alt) := by
    intro h
    rcases List.mem_cons.mp h with h | h
    · exact absurd h (by decide)
    · rcases List.mem_cons.mp h with h | h
      · exact absurd h (by decide)
      · exact halt h
  rw [hshape, fixAux_clean t ('!' :: '[' :: alt) _ f hclean (hshape ▸ hf),
      fixAux_pair_match t path r f hpr hconv (by
        have := hshape ▸ hf
        simp [List.length_append] at this ⊢
        omega)]
  simp [renderSeg, replTail]

theorem fixAux_img_nomatch (t alt path r : List Char) (f : Nat)
    (halt : ']' ∉ alt) (hpr : ')' ∉ path) (hpb : ']' ∉ path)
    (hconv : matchesConv path = false)
    (hf : (renderSeg (.img alt path) ++ r).length ≤ f) :
    fixAux t f (renderSeg (.img alt path) ++ r) =
      renderSeg (.img alt path) ++ fixAux t f r := by
  have hshape : renderSeg (.img alt path) ++ r =
      ('!' :: '[' :: alt) ++ (']' :: '(' :: (path ++ ')' :: r)) := by
    simp [renderSeg]
  have hclean : ']' ∉ ('!' :: '[' :: alt) := by
    intro h
    rcases List.mem_cons.mp h with h | h
    · exact absurd h (by decide)
    · rcases List.mem_cons.mp h with h | h
      · exact absurd h (by decide)
      · exact halt h
  rw [hshape, fixAux_clean t ('!' :: '[' :: alt) _ f hclean (hshape ▸ hf),
      fixAux_pair_nomatch t path r f hpr hpb hconv (by
        have := hshape ▸ hf
        simp [List.length_append] at this ⊢
        omega)]
  simp [renderSeg]

theorem fixAux_render (t : List Char) :
    ∀ (L : List Seg) (r : List Char) (f : Nat), L.all wfSeg = true →
      (render L ++ r).length ≤ f →
      fixAux t f (render L ++ r) = render (L.map (rewriteSeg t)) ++ fixAux t f r := by
  intro L
  induction L with
  | nil => intro r f _ _; simp [render]
  | cons s L' ih =>
      intro r f hwf hf
      simp only [List.all_cons, Bool.and_eq_true] at hwf
      obtain ⟨hs, hL'⟩ := hwf
      have hshape : render (s :: L') ++ r = renderSeg s ++ (render L' ++ r) := by
        simp [render]
      have hlen' : (render L' ++ r).length ≤ f := by
        have h1 : (render (s :: L') ++ r).length =
            (renderSeg s).length + (render L' ++ r).length := by
          rw [hshape]; simp [List.length_append]
        omega
      cases s with
      | text txt =>
          have hno : ']' ∉ txt := of_decide_eq_true hs
          have hf2 : (txt ++ (render L' ++ r)).length ≤ f := by
            have h2 := hshape ▸ hf
            simpa [renderSeg] using h2
          rw [hshape]
          show fixAux t f (txt ++ (render L' ++ r)) = _
          rw [fixAux_clean t txt (render L' ++ r) f hno hf2, ih r f hL' hlen']
          simp [render, renderSeg, rewriteSeg]
      | img alt path =>
          simp only [wfSeg, Bool.and_eq_true] at hs
          obtain ⟨⟨halt, hpr⟩, hpb⟩ := hs
          have halt' : ']' ∉ alt := of_decide_eq_true halt
          have hpr' : ')' ∉ path := of_decide_eq_true hpr
          have hpb' : ']' ∉ path := of_decide_eq_true hpb
          by_cases hconv : matchesConv path = true
          · rw [hshape, fixAux_img_match t alt path (render L' ++ r) f halt' hpr' hconv
                (hshape ▸ hf), ih r f hL' hlen']
            simp [render, rewriteSeg, hconv]
          · rw [hshape, fixAux_img_nomatch t alt path (render L' ++ r) f halt' hpr' hpb'
                (Bool.not_eq_true _ ▸ hconv) (hshape ▸ hf), ih r f hL' hlen']
            simp [render, rewriteSeg, hconv]

/-- C2 (counterexample): the claim's bit-exact external form
`/assets/{taskId}/{filename}` is not what the code produces — the
converter rewrites matching references to `/api/images/{taskId}/{filename}`. -/
theorem c2_counterexample :
    fixImagePaths "t" "![a](/x/output_artifacts/b.png)" ≠ "![a](/assets/t/b.png)" ∧
    fixImagePaths "t" "![a](/x/output_artifacts/b.png)" = "![a](/api/images/t/b.png)" := by
  constructor
  · decide
  · decide

/-- C2 (amended): for every well-formed document, every embedded image
reference whose path matches the engine's `output_artifacts` convention
is rewritten to exactly `/api/images/{taskId}/{filename}`, where
`{filename}` is the final path segment of the original reference
(see `rewriteSeg`), and everything else is left unchanged. -/
theorem c2_rewrite (tid : String) (L : List Seg) (hwf : L.all wfSeg = true) :
    fixImagePaths tid (String.mk (render L)) =
      String.mk (render (L.map (rewriteSeg tid.toList))) := by
  show String.mk (fixAux tid.toList (render L).length (render L)) = _
  have h := fixAux_render tid.toList L [] (render L).length hwf (by simp)
  rw [List.append_nil] at h
  rw [h, fixAux_nil, List.append_nil]

/-- C2 (witness): the amended rewrite theorem evaluated on a concrete
two-segment document. -/
theorem c2_witness :
    ([Seg.img ['a'] "/x/output_artifacts/b.png".toList,
      Seg.text " tail".toList].all wfSeg = true) ∧
    fixImagePaths "tid" (String.mk (render
        [Seg.img ['a'] "/x/output_artifacts/b.png".toList,
         Seg.text " tail".toList])) =
      String.mk (render ([Seg.img ['a'] "/x/output_artifacts/b.png".toList,
         Seg.text " tail".toList].map (rewriteSeg "tid".toList))) :=
  ⟨by decide, c2_rewrite "tid" _ (by decide)⟩

/- ============ Lemmas about the bundle rewrite scanner ============ -/

theorem splitAtChar_length {c : Char} {l a b : List Char}
    (h : splitAtChar c l = some (a, b)) : b.length < l.length := by
  obtain ⟨he, -⟩ := splitAtChar_some h
  subst he
  simp [List.length_append]
  omega

theorem parseZipRef_shrink {l alt fname rest : List Char}
    (h : parseZipRef l = some (alt, fname, rest)) : rest.length < l.length := by
  unfold parseZipRef at h
  by_cases h1 : l.head? = some '['
  case neg => rw [if_neg h1] at h; exact absurd h (by simp)
  rw [if_pos h1, Option.bind_eq_some] at h
  obtain ⟨p1, hsp1, h⟩ := h
  by_cases h2 : p1.2.head? = some '('
  case neg => rw [if_neg h2] at h; exact absurd h (by simp)
  rw [if_pos h2] at h
  by_cases h3 : apiPat.isPrefixOf p1.2.tail
  case neg => rw [if_neg h3] at h; exact absurd h (by simp)
  rw [if_pos h3, Option.bind_eq_some] at h
  obtain ⟨p2, hsp2, h⟩ := h
  by_cases h4 : p2.1 = []
  case pos => rw [if_pos h4] at h; exact absurd h (by simp)
  rw [if_neg h4, Option.bind_eq_some] at h
  obtain ⟨p3, hsp3, h⟩ := h
  by_cases h5 : p3.1 = []
  case pos => rw [if_pos h5] at h; exact absurd h (by simp)
  rw [if_neg h5] at h
  have hrest : rest = p3.2 := (congrArg (fun q => q.2.2) (Option.some.inj h)).symm
  subst hrest
  have e1 : p3.2.length < p2.2.length := splitAtChar_length hsp3
  have e2 : p2.2.length < (p1.2.tail.drop apiPat.length).length := splitAtChar_length hsp2
  have e3 : (p1.2.tail.drop apiPat.length).length ≤ p1.2.tail.length := by
    simp only [List.length_drop]
    omega
  have e4 : p1.2.tail.length ≤ p1.2.length := by
    cases hp : p1.2 <;> simp
  have e5 : p1.2.length < l.tail.length := splitAtChar_length hsp1
  have e6 : l.tail.length ≤ l.length := by
    cases l <;> simp
  omega

theorem fixZipAux_nil (f : Nat) : fixZipAux f [] = [] := by
  cases f <;> rfl

theorem fixZipAux_fuel :
    ∀ f g l, l.length ≤ f → l.length ≤ g → fixZipAux f l = fixZipAux g l := by
  intro f
  induction f with
  | zero =>
      intro g l hf _
      have : l = [] := List.eq_nil_of_length_eq_zero (Nat.le_zero.mp hf)
      subst this
      simp [fixZipAux_nil]
  | succ f ih =>
      intro g l hf hg
      cases l with
      | nil => simp [fixZipAux_nil]
      | cons c rest =>
          cases g with
          | zero => simp at hg
          | succ g =>
              simp only [List.length_cons, Nat.add_le_add_iff_right] at hf hg
              simp only [fixZipAux]
              by_cases hc : c = '!'
              · rw [if_pos hc, if_pos hc]
                cases hsp : parseZipRef rest with
                | none => simp only [ih g rest hf hg]
                | some p =>
                    obtain ⟨alt, fname, rest'⟩ := p
                    have hlen : rest'.length ≤ rest.length := by
                      -- parseZipRef only splits off pieces of its input
                      have := parseZipRef_shrink hsp
                      omega
                    simp only [ih g rest' (by omega) (by omega), ih g rest hf hg]
              · rw [if_neg hc, if_neg hc]
                simp only [ih g rest hf hg]

theorem fixZipAux_clean :
    ∀ (s r : List Char) (f : Nat), '!' ∉ s → (s ++ r).length ≤ f →
      fixZipAux f (s ++ r) = s ++ fixZipAux f r := by
  intro s
  induction s with
  | nil => intro r f _ _; simp
  | cons c s' ih =>
      intro r f hno hf
      have hc : ¬ c = '!' := fun h => hno (by simp [h])
      have hno' : '!' ∉ s' := fun h => hno (by simp [h])
      cases f with
      | zero => simp at hf
      | succ f =>
          simp only [List.cons_append, fixZipAux, List.append_eq]
          rw [if_neg hc]
          simp only [List.cons_append, List.length_cons] at hf
          rw [ih r f hno' (by omega)]
          have hr : r.length ≤ f := by
            rw [List.length_append] at hf
            omega
          rw [fixZipAux_fuel f (f + 1) r hr (by omega)]

theorem parseZipRef_render (alt seg fname r : List Char)
    (halt : ']' ∉ alt) (hseg : seg ≠ []) (hsegs : '/' ∉ seg)
    (hfn : fname ≠ []) (hfnp : ')' ∉ fname) :
    parseZipRef ('[' :: (alt ++ ']' :: '(' :: (apiPat ++ (seg ++ '/' :: (fname ++ ')' :: r)))))
      = some (alt, fname, r) := by
  unfold parseZipRef
  have h1 : splitAtChar ']' (alt ++ ']' :: '(' :: (apiPat ++ (seg ++ '/' :: (fname ++ ')' :: r))))
      = some (alt, '(' :: (apiPat ++ (seg ++ '/' :: (fname ++ ')' :: r)))) :=
    splitAtChar_append _ halt
  have h2 : splitAtChar '/' (seg ++ '/' :: (fname ++ ')' :: r))
      = some (seg, fname ++ ')' :: r) := splitAtChar_append _ hsegs
  have h3 : splitAtChar ')' (fname ++ ')' :: r) = some (fname, r) :=
    splitAtChar_append _ hfnp
  have hpre : apiPat.isPrefixOf (apiPat ++ (seg ++ '/' :: (fname ++ ')' :: r))) = true :=
    List.isPrefixOf_iff_prefix.mpr (List.prefix_append _ _)
  simp only [List.head?_cons, List.tail_cons, h1, Option.some_bind, hpre,
    List.drop_left, h2, h3, if_pos, if_true, if_neg hseg, if_neg hfn]

theorem fixZipAux_img (alt seg fname r : List Char) (f : Nat)
    (halt : ']' ∉ alt) (hseg : seg ≠ []) (hsegs : '/' ∉ seg)
    (hfn : fname ≠ []) (hfnp : ')' ∉ fname)
    (hf : (renderZSeg (.img alt seg fname) ++ r).length ≤ f) :
    fixZipAux f (renderZSeg (.img alt seg fname) ++ r) =
      rewriteZSeg (.img alt seg fname) ++ fixZipAux f r := by
  have hshape : renderZSeg (.img alt seg fname) ++ r =
      '!' :: ('[' :: (alt ++ ']' :: '(' ::
        (apiPat ++ (seg ++ '/' :: (fname ++ ')' :: r))))) := by
    simp [renderZSeg, apiPat]
  rw [hshape] at hf ⊢
  cases f with
  | zero => simp at hf
  | succ f =>
      simp only [fixZipAux]
      rw [if_pos trivial, parseZipRef_render alt seg fname r halt hseg hsegs hfn hfnp]
      have hrlen : r.length ≤ f := by
        simp only [List.length_cons, List.length_append] at hf
        omega
      simp only [fixZipAux_fuel f (f + 1) r hrlen (by omega)]
      simp [rewriteZSeg]

theorem fixZipAux_render :
    ∀ (L : List ZSeg) (r : List Char) (f : Nat), L.all wfZSeg = true →
      (renderZ L ++ r).length ≤ f →
      fixZipAux f (renderZ L ++ r) = (L.map rewriteZSeg).flatten ++ fixZipAux f r := by
  intro L
  induction L with
  | nil => intro r f _ _; simp [renderZ]
  | cons s L' ih =>
      intro r f hwf hf
      simp only [List.all_cons, Bool.and_eq_true] at hwf
      obtain ⟨hs, hL'⟩ := hwf
      have hshape : renderZ (s :: L') ++ r = renderZSeg s ++ (renderZ L' ++ r) := by
        simp [renderZ]
      have hlen' : (renderZ L' ++ r).length ≤ f := by
        have h1 : (renderZ (s :: L') ++ r).length =
            (renderZSeg s).length + (renderZ L' ++ r).length := by
          rw [hshape]; simp [List.length_append]
        omega
      cases s with
      | text txt =>
          have hno : '!' ∉ txt := of_decide_eq_true hs
          have hf2 : (txt ++ (renderZ L' ++ r)).length ≤ f := by
            have h2 := hshape ▸ hf
            simpa [renderZSeg] using h2
          rw [hshape]
          show fixZipAux f (txt ++ (renderZ L' ++ r)) = _
          rw [fixZipAux_clean txt (renderZ L' ++ r) f hno hf2, ih r f hL' hlen']
          simp [renderZ, renderZSeg, rewriteZSeg]
      | img alt seg fname =>
          simp only [wfZSeg, Bool.and_eq_true] at hs
          obtain ⟨⟨⟨⟨halt, hseg⟩, hsegs⟩, hfn⟩, hfnp⟩ := hs
          rw [hshape, fixZipAux_img alt seg fname (renderZ L' ++ r) f
              (of_decide_eq_true halt) (of_decide_eq_true hseg)
              (of_decide_eq_true hsegs) (of_decide_eq_true hfn)
              (of_decide_eq_true hfnp) (hshape ▸ hf),
            ih r f hL' hlen']
          simp [renderZ, rewriteZSeg]

theorem foldr_if_eq_filter_map {α β : Type} (P : α → Prop) [DecidablePred P] (g : α → β) :
    ∀ l : List α,
      l.foldr (fun x acc => if P x then g x :: acc else acc) [] =
        (l.filter (fun x => decide (P x))).map g := by
  intro l
  induction l with
  | nil => rfl
  | cons x xs ih => by_cases h : P x <;> simp [List.filter_cons, h, ih]

/-- C7: `create_markdown_zip` returns absent exactly when the primary
output is missing; otherwise the archive holds the primary output with
its API asset references rewritten to the relative `images/{filename}`
form (see `rewriteZSeg`), plus exactly those `output_artifacts` files
whose lowercased extension is in the png/jpg/jpeg/gif/webp allow-list. -/
theorem c7_bundle (st : Store) (tid : String) :
    (create_markdown_zip tid st = none ↔ get_markdown tid st = none) ∧
    (∀ L : List ZSeg, L.all wfZSeg = true →
      get_markdown tid st = some (String.mk (renderZ L)) →
      create_markdown_zip tid st = some
        (("output.md", String.mk ((L.map rewriteZSeg).flatten)) ::
          (((lookupStr st.artifacts tid).getD []).filter
            (fun f => decide (String.mk ((pathSuffix f.1).toList.map lowerChar) ∈ allowedExts))).map
            (fun f => ("images/" ++ f.1, f.2)))) := by
  constructor
  · unfold create_markdown_zip get_markdown
    cases lookupStr st.markdown tid <;> simp
  · intro L hwf hmd
    have hz : fixZipPaths (String.mk (renderZ L)) =
        String.mk ((L.map rewriteZSeg).flatten) := by
      show String.mk (fixZipAux (renderZ L).length (renderZ L)) = _
      have h := fixZipAux_render L [] (renderZ L).length hwf (by simp)
      rw [List.append_nil] at h
      rw [h, fixZipAux_nil, List.append_nil]
    unfold create_markdown_zip
    rw [show lookupStr st.markdown tid = some (String.mk (renderZ L)) from hmd]
    simp only [hz, foldr_if_eq_filter_map]

/-- C7 (witness): the bundle theorem evaluated on a concrete store with
one matching reference and a mixed set of artifact files. -/
theorem c7_witness :
    ([ZSeg.text "intro ".toList,
      ZSeg.img ['p'] "t9".toList "a.png".toList].all wfZSeg = true) ∧
    create_markdown_zip "t9"
        ⟨[("t9", String.mk (renderZ [ZSeg.text "intro ".toList,
            ZSeg.img ['p'] "t9".toList "a.png".toList]))],
         [("t9", [("a.png", "PNG"), ("notes.txt", "TXT"), ("b.JPG", "JPG")])]⟩ =
      some [("output.md", "intro ![p](images/a.png)"),
            ("images/a.png", "PNG"), ("images/b.JPG", "JPG")] := by
  constructor
  · decide
  · have h := (c7_bundle
      ⟨[("t9", String.mk (renderZ [ZSeg.text "intro ".toList,
          ZSeg.img ['p'] "t9".toList "a.png".toList]))],
       [("t9", [("a.png", "PNG"), ("notes.txt", "TXT"), ("b.JPG", "JPG")])]⟩ "t9").2
      [ZSeg.text "intro ".toList, ZSeg.img ['p'] "t9".toList "a.png".toList]
      (by decide) rfl
    rw [h]
    decide

/-- C1 (code bug, evaluation): `get_image_path` performs no validation
of `filename`.  With a traversal filename containing `/` and `..`
segments it resolves to — and returns — a path inside another task's
asset namespace instead of the absent answer the specification
requires. -/
theorem c1_traversal_bug :
    get_image_path [["storage", "output", "t2", "output_artifacts", "secret.png"]]
        "t1" "../../t2/output_artifacts/secret.png" =
      some ["storage", "output", "t2", "output_artifacts", "secret.png"] ∧
    (["storage", "output", "t1", "output_artifacts"].isPrefixOf
        ["storage", "output", "t2", "output_artifacts", "secret.png"]) = false ∧
    '/' ∈ "../../t2/output_artifacts/secret.png".toList ∧
    ".." ∈ splitSlash "../../t2/output_artifacts/secret.png" := by
  exact ⟨by decide, by decide, by decide, by decide⟩

/-- C8: a submission whose filename does not end in `.pdf`
(case-insensitively) or whose content is empty is rejected
synchronously with an `HTTPException`, dispatches no background job,
and leaves the registry unchanged. -/
theorem c8_invalid_input (metaTitle : List Nat → Option String)
    (filename : String) (pdf_bytes : List Nat) (new_id : String) (now : Nat)
    (db : DB) (st : Store)
    (h : ".pdf".toList.isSuffixOf (filename.toList.map lowerChar) = false ∨
         pdf_bytes = []) :
    ∃ msg, convert_pdf metaTitle filename pdf_bytes new_id now db st =
      ⟨.error msg, none, db⟩ := by
  by_cases hext : ".pdf".toList.isSuffixOf (filename.toList.map lowerChar) = true
  · have hb : pdf_bytes = [] := by
      rcases h with h | h
      · rw [hext] at h; exact absurd h (by simp)
      · exact h
    refine ⟨"Empty file", ?_⟩
    unfold convert_pdf
    rw [if_neg (fun hc => hc hext), if_pos (by simp [hb])]
  · refine ⟨"Only PDF files are accepted", ?_⟩
    unfold convert_pdf
    rw [if_pos hext]

/-- C8 (witness): a 1-byte submission with a non-PDF filename is
rejected with the registry untouched. -/
theorem c8_witness :
    (".pdf".toList.isSuffixOf ("blob.txt".toList.map lowerChar) = false ∨
       ([1] : List Nat) = []) ∧
    ∃ msg, convert_pdf (fun _ => none) "blob.txt" [1] "n1" 0 emptyDB emptyStore =
      ⟨.error msg, none, emptyDB⟩ :=
  ⟨Or.inl (by decide),
   c8_invalid_input (fun _ => none) "blob.txt" [1] "n1" 0 emptyDB emptyStore
     (Or.inl (by decide))⟩

/-- C9: `delete_old_tasks` deletes exactly the task rows whose creation
time is older than the threshold, reports their number, and leaves the
cache table untouched. -/
theorem c9_prune_frame (cutoff : Nat) (db : DB) :
    (delete_old_tasks cutoff db).2.cache = db.cache ∧
    (∀ r : TaskRow, r ∈ (delete_old_tasks cutoff db).2.tasks ↔
       r ∈ db.tasks ∧ ¬ r.created_at < cutoff) ∧
    (delete_old_tasks cutoff db).1 =
      (db.tasks.filter (fun r => decide (r.created_at < cutoff))).length := by
  refine ⟨rfl, ?_, rfl⟩
  intro r
  simp [delete_old_tasks, List.mem_filter]

/-- C10: the content fingerprint is a deterministic function of the
byte content: the first 16 hexadecimal characters of the 64-character
SHA-256 digest of the full content. -/
theorem c10_fingerprint (b1 b2 : List Nat) (h : b1 = b2) :
    get_pdf_hash b1 = get_pdf_hash b2 ∧
    get_pdf_hash b1 = String.mk ((sha256hexList b1).take 16) ∧
    (sha256hexList b1).length = 64 ∧
    (get_pdf_hash b1).length = 16 := by
  subst h
  have h64 : (sha256hexList b1).length = 64 := by
    simp [sha256hexList, wordHex, List.length_append]
  refine ⟨rfl, rfl, h64, ?_⟩
  show ((String.mk ((sha256hexList b1).take 16)).length) = 16
  have hmk : ∀ l : List Char, (String.mk l).length = l.length := fun l => rfl
  rw [hmk, List.length_take, h64]
  decide

/-- C10 (witness): the fingerprint facts evaluated at a concrete byte
string. -/
theorem c10_witness :
    (([0] : List Nat) = [0]) ∧
    (get_pdf_hash [0] = get_pdf_hash [0] ∧
     get_pdf_hash [0] = String.mk ((sha256hexList [0]).take 16) ∧
     (sha256hexList [0]).length = 64 ∧
     (get_pdf_hash [0]).length = 16) :=
  ⟨rfl, c10_fingerprint [0] [0] rfl⟩

/- ============ Registry flow helpers ============ -/

theorem find?_append_right (p : TaskRow → Bool) :
    ∀ l1 l2 : List TaskRow, (∀ x ∈ l1, p x = false) →
      (l1 ++ l2).find? p = l2.find? p := by
  intro l1
  induction l1 with
  | nil => intro l2 _; rfl
  | cons x l1' ih =>
      intro l2 hno
      have hx : p x = false := hno x (by simp)
      simp only [List.cons_append, List.find?_cons, hx]
      exact ih l2 (fun y hy => hno y (by simp [hy]))

theorem find?_update_list (tid : String) (u : TaskRow → TaskRow)
    (hu : ∀ r, (u r).id = r.id) :
    ∀ l : List TaskRow,
      (l.map (fun r => if r.id = tid then u r else r)).find?
          (fun r => r.id = tid) =
        (l.find? (fun r => r.id = tid)).map u := by
  intro l
  induction l with
  | nil => rfl
  | cons r l' ih =>
      by_cases h : r.id = tid
      · simp [List.find?_cons, h, hu r]
      · simp [List.find?_cons, h, ih]

theorem create_task_ok {tid fmt : String} {now : Nat} {db db' : DB}
    (h : create_task tid fmt now db = .ok db') :
    (db.tasks.any (fun r => r.id = tid)) = false ∧
    db' = { db with tasks := db.tasks ++
      [⟨tid, "pending", fmt, none, none, none, now, none⟩] } := by
  unfold create_task at h
  by_cases hany : (db.tasks.any (fun r => r.id = tid)) = true
  · rw [if_pos hany] at h
    exact absurd h (by simp)
  · rw [if_neg hany] at h
    exact ⟨by simpa using hany, (Except.ok.inj h).symm⟩

theorem get_task_create {tid fmt : String} {now : Nat} {db db' : DB}
    (h : create_task tid fmt now db = .ok db') :
    get_task tid db' = some ⟨tid, "pending", fmt, none, none, none, now, none⟩ := by
  obtain ⟨hany, hdb⟩ := create_task_ok h
  subst hdb
  unfold get_task
  rw [find?_append_right _ db.tasks _ (by
    intro x hx
    have := (List.any_eq_false.mp hany) x hx
    simpa using this)]
  simp [List.find?_cons]

theorem get_task_update (tid status : String)
    (title output_path error_message : Option String) (now : Nat) (db : DB) :
    get_task tid (update_task_status tid status title output_path error_message now db) =
      (get_task tid db).map (fun r =>
        if status = "done" ∨ status = "error" then
          { r with status := status, title := title, output_path := output_path,
                   error_message := error_message, completed_at := some now }
        else { r with status := status, title := title }) := by
  unfold get_task update_task_status
  exact find?_update_list tid _ (fun r => by
    by_cases h : status = "done" ∨ status = "error" <;> simp [h]) db.tasks

theorem get_task_create_cache (tid title fmt outp : String) (now : Nat) (db : DB) :
    get_task tid (create_cache title fmt outp now db) = get_task tid db := rfl

/-- C5 (counterexample): the registry operations themselves allow a
later `update_task_status` call to move a task out of `done`: after
the sequence create → update-to-done → update-to-processing, the task's
status is `processing` again. -/
theorem c5_counterexample :
    (get_task "t" dbDone).map (fun r => r.status) = some "done" ∧
    (get_task "t" dbReverted).map (fun r => r.status) = some "processing" :=
  ⟨by decide, by decide⟩

/-- C5 (amended): along the orchestrator's conversion flow — a task
created pending and then updated only by its single
`_process_conversion` run — the observed statuses are `pending`, then
`processing`, then a terminal `done` or `error`. -/
theorem c5_flow (engine : List Nat → EngineOut) (tid : String) (b : List Nat)
    (ch : String) (now0 now1 : Nat) (db db1 : DB) (st : Store)
    (hcr : create_task tid "markdown" now0 db = .ok db1) :
    (get_task tid db1).map (fun r => r.status) = some "pending" ∧
    (get_task tid (update_task_status tid "processing" none none none now1 db1)).map
        (fun r => r.status) = some "processing" ∧
    ((get_task tid (process_conversion engine tid b ch now1 db1 st).1).map
        (fun r => r.status) = some "done" ∨
     (get_task tid (process_conversion engine tid b ch now1 db1 st).1).map
        (fun r => r.status) = some "error") := by
  have hc := get_task_create hcr
  refine ⟨by rw [hc]; rfl, by rw [get_task_update, hc]; rfl, ?_⟩
  unfold process_conversion
  cases heng : engine b with
  | ok docName md assets =>
      left
      simp only [convert_pdf_to_markdown, heng]
      rw [get_task_create_cache, get_task_create_cache,
        get_task_update, get_task_update, hc]
      rfl
  | fail msg =>
      right
      simp only [convert_pdf_to_markdown, heng]
      rw [get_task_update, get_task_update, hc]
      rfl

/-- C5 (witness): the in-flow status chain evaluated on a concrete
task and a successful engine run. -/
theorem c5_witness :
    (create_task "t" "markdown" 0 emptyDB = .ok dbW) ∧
    ((get_task "t" dbW).map (fun r => r.status) = some "pending" ∧
     (get_task "t" (update_task_status "t" "processing" none none none 1 dbW)).map
         (fun r => r.status) = some "processing" ∧
     ((get_task "t" (process_conversion (fun _ => .ok "Doc" "md" []) "t" [1] "h" 1 dbW
          emptyStore).1).map (fun r => r.status) = some "done" ∨
      (get_task "t" (process_conversion (fun _ => .ok "Doc" "md" []) "t" [1] "h" 1 dbW
          emptyStore).1).map (fun r => r.status) = some "error")) :=
  ⟨by decide,
   c5_flow (fun _ => .ok "Doc" "md" []) "t" [1] "h" 0 1 emptyDB dbW emptyStore (by decide)⟩

/-- C6 (counterexample): a registry-operation sequence reaching a
record whose `completed_at` is set while its status is `processing`,
violating the claimed iff. -/
theorem c6_counterexample :
    (get_task "t" dbReverted).map (fun r => (r.status, r.completed_at.isSome)) =
      some ("processing", true) := by
  decide

/-- C6 (amended): along the orchestrator's conversion flow, every
record observed for the task satisfies the invariant: `completed_at`
is set iff the status is `done` or `error`, and `title`/`output_path`
are set only in `done`. -/
theorem c6_flow (engine : List Nat → EngineOut) (tid : String) (b : List Nat)
    (ch : String) (now0 now1 : Nat) (db db1 : DB) (st : Store)
    (hcr : create_task tid "markdown" now0 db = .ok db1) :
    (∀ r, get_task tid db1 = some r → taskInv r) ∧
    (∀ r, get_task tid (update_task_status tid "processing" none none none now1 db1) =
        some r → taskInv r) ∧
    (∀ r, get_task tid (process_conversion engine tid b ch now1 db1 st).1 = some r →
        taskInv r) := by
  have hc := get_task_create hcr
  refine ⟨?_, ?_, ?_⟩
  · intro r hr
    rw [hc] at hr
    have he := Option.some.inj hr
    subst he
    simp [taskInv]
  · intro r hr
    rw [get_task_update, hc] at hr
    simp only [Option.map_some'] at hr
    have he := Option.some.inj hr
    subst he
    simp [taskInv]
  · intro r hr
    unfold process_conversion at hr
    cases heng : engine b with
    | ok docName md assets =>
        simp only [convert_pdf_to_markdown, heng] at hr
        rw [get_task_create_cache, get_task_create_cache,
          get_task_update, get_task_update, hc] at hr
        simp only [Option.map_some'] at hr
        have he := Option.some.inj hr
        subst he
        simp [taskInv]
    | fail msg =>
        simp only [convert_pdf_to_markdown, heng] at hr
        rw [get_task_update, get_task_update, hc] at hr
        simp only [Option.map_some'] at hr
        have he := Option.some.inj hr
        subst he
        simp [taskInv]

/-- C6 (witness): the in-flow record invariant evaluated on a concrete
task and engine run. -/
theorem c6_witness :
    (create_task "t" "markdown" 0 emptyDB = .ok dbW) ∧
    ((∀ r, get_task "t" dbW = some r → taskInv r) ∧
     (∀ r, get_task "t" (update_task_status "t" "processing" none none none 1 dbW) =
         some r → taskInv r) ∧
     (∀ r, get_task "t" (process_conversion (fun _ => .ok "Doc" "md" []) "t" [1] "h" 1
         dbW emptyStore).1 = some r → taskInv r)) :=
  ⟨by decide,
   c6_flow (fun _ => .ok "Doc" "md" []) "t" [1] "h" 0 1 emptyDB dbW emptyStore (by decide)⟩

/- ============ Cache lookup and cache-hit lemmas ============ -/

theorem cache_lookup_mem {k fmt : String} {db : DB} {r : CacheRow}
    (h : get_cache_by_title k fmt db = some r) :
    r ∈ db.cache ∧ r.title = k ∧ r.format = fmt := by
  unfold get_cache_by_title at h
  refine ⟨List.mem_of_find?_eq_some h, ?_⟩
  have hp := List.find?_some h
  simpa using hp

theorem cache_lookup_isSome {k fmt : String} {db : DB}
    (h : ∃ r ∈ db.cache, r.title = k ∧ r.format = fmt) :
    ∃ r, get_cache_by_title k fmt db = some r := by
  unfold get_cache_by_title
  obtain ⟨r, hm, h1, h2⟩ := h
  have hs : (db.cache.find? (fun r => r.title = k ∧ r.format = fmt)).isSome := by
    rw [List.find?_isSome]
    exact ⟨r, hm, by simp [h1, h2]⟩
  exact Option.isSome_iff_exists.mp hs

theorem convert_pdf_hit_hash (metaTitle : List Nat → Option String)
    (fn : String) (b : List Nat) (nid : String) (now : Nat) (db : DB) (st : Store)
    (v : String)
    (hfn : ".pdf".toList.isSuffixOf (fn.toList.map lowerChar) = true)
    (hb : b ≠ [])
    (hall : ∀ r ∈ db.cache, r.output_path = v)
    (hhash : ∃ r ∈ db.cache, r.title = "hash:" ++ get_pdf_hash b ∧ r.format = "markdown")
    (hmd : task_has_markdown v st = true) :
    convert_pdf metaTitle fn b nid now db st =
      ⟨.ok ⟨v, "done", "Found cached conversion result", true⟩, none, db⟩ := by
  obtain ⟨rh, hrh⟩ := cache_lookup_isSome hhash
  have hv : rh.output_path = v := hall rh (cache_lookup_mem hrh).1
  unfold convert_pdf
  rw [if_neg (fun hc => hc hfn), if_neg (fun hc => hb (List.length_eq_zero.mp hc))]
  cases hmt : metaTitle b with
  | none => simp [hrh, hv, hmd]
  | some t =>
      by_cases ht : t = ""
      · simp [ht, hrh, hv, hmd]
      · cases hct : get_cache_by_title t "markdown" db with
        | none => simp [ht, hct, hrh, hv, hmd]
        | some c =>
            have hcv : c.output_path = v := hall c (cache_lookup_mem hct).1
            simp [ht, hct, hcv, hmd]

theorem convert_pdf_hit_title (metaTitle : List Nat → Option String)
    (fn : String) (b : List Nat) (nid : String) (now : Nat) (db : DB) (st : Store)
    (v T : String)
    (hfn : ".pdf".toList.isSuffixOf (fn.toList.map lowerChar) = true)
    (hb : b ≠ [])
    (hmt : metaTitle b = some T) (hT : T ≠ "")
    (hall : ∀ r ∈ db.cache, r.output_path = v)
    (htitle : ∃ r ∈ db.cache, r.title = T ∧ r.format = "markdown")
    (hmd : task_has_markdown v st = true) :
    convert_pdf metaTitle fn b nid now db st =
      ⟨.ok ⟨v, "done", "Found cached conversion result", true⟩, none, db⟩ := by
  obtain ⟨rt, hrt⟩ := cache_lookup_isSome htitle
  have hv : rt.output_path = v := hall rt (cache_lookup_mem hrt).1
  unfold convert_pdf
  rw [if_neg (fun hc => hc hfn), if_neg (fun hc => hb (List.length_eq_zero.mp hc))]
  rw [hmt]
  simp [hT, hrt, hv, hmd]

theorem convert_pdf_miss_empty (metaTitle : List Nat → Option String)
    (fn : String) (b : List Nat) (nid : String) (now : Nat)
    (hfn : ".pdf".toList.isSuffixOf (fn.toList.map lowerChar) = true)
    (hb : b ≠ []) :
    convert_pdf metaTitle fn b nid now emptyDB emptyStore =
      ⟨.ok ⟨nid, "pending",
        "Conversion started. Check status with /api/status/{task_id}", false⟩,
       some (nid, b, get_pdf_hash b),
       ⟨[], [⟨nid, "pending", "markdown", none, none, none, now, none⟩]⟩⟩ := by
  unfold convert_pdf
  rw [if_neg (fun hc => hc hfn), if_neg (fun hc => hb (List.length_eq_zero.mp hc))]
  cases hmt : metaTitle b with
  | none => simp [get_cache_by_title, create_task, emptyDB, emptyStore]
  | some t =>
      by_cases ht : t = "" <;>
        simp [ht, get_cache_by_title, create_task, emptyDB, emptyStore]

theorem first_flow_facts (metaTitle : List Nat → Option String)
    (engine : List Nat → EngineOut) (fn : String) (b : List Nat) (id1 : String)
    (t0 t1 : Nat) (docName md : String) (assets : List (String × String))
    (hfn : ".pdf".toList.isSuffixOf (fn.toList.map lowerChar) = true)
    (hb : b ≠ [])
    (heng : engine b = .ok docName md assets) :
    (∀ r ∈ (process_conversion engine id1 b (get_pdf_hash b) t1
        (convert_pdf metaTitle fn b id1 t0 emptyDB emptyStore).db emptyStore).1.cache,
      r.output_path = id1) ∧
    (∃ r ∈ (process_conversion engine id1 b (get_pdf_hash b) t1
        (convert_pdf metaTitle fn b id1 t0 emptyDB emptyStore).db emptyStore).1.cache,
      r.title = "hash:" ++ get_pdf_hash b ∧ r.format = "markdown") ∧
    (∃ r ∈ (process_conversion engine id1 b (get_pdf_hash b) t1
        (convert_pdf metaTitle fn b id1 t0 emptyDB emptyStore).db emptyStore).1.cache,
      r.title = (if docName = "" then "Untitled" else docName) ∧ r.format = "markdown") ∧
    task_has_markdown id1 (process_conversion engine id1 b (get_pdf_hash b) t1
        (convert_pdf metaTitle fn b id1 t0 emptyDB emptyStore).db emptyStore).2 = true := by
  rw [convert_pdf_miss_empty metaTitle fn b id1 t0 hfn hb]
  unfold process_conversion
  simp only [convert_pdf_to_markdown, heng]
  have hT2 : (if (if docName = "" then "Untitled" else docName) = "" then "Untitled"
      else (if docName = "" then "Untitled" else docName)) =
      (if docName = "" then "Untitled" else docName) := by
    by_cases hd : docName = "" <;> simp [hd]
  simp only [hT2, create_cache, update_task_status, List.filter_nil, List.nil_append]
  refine ⟨?_, ?_, ?_, ?_⟩
  · intro r hr
    rcases List.mem_append.mp hr with h | h
    · have h1 := (List.mem_filter.mp h).1
      have h2 : r = ⟨if docName = "" then "Untitled" else docName, "markdown", id1, t1⟩ := by
        simpa using h1
      rw [h2]
    · have h2 : r = ⟨"hash:" ++ get_pdf_hash b, "markdown", id1, t1⟩ := by
        simpa using h
      rw [h2]
  · refine ⟨⟨"hash:" ++ get_pdf_hash b, "markdown", id1, t1⟩, ?_, rfl, rfl⟩
    exact List.mem_append.mpr (Or.inr (by simp))
  · by_cases hcol : (if docName = "" then "Untitled" else docName) =
        "hash:" ++ get_pdf_hash b
    · refine ⟨⟨"hash:" ++ get_pdf_hash b, "markdown", id1, t1⟩, ?_, hcol.symm, rfl⟩
      exact List.mem_append.mpr (Or.inr (by simp))
    · refine ⟨⟨(if docName = "" then "Untitled" else docName), "markdown", id1, t1⟩,
        ?_, rfl, rfl⟩
      refine List.mem_append.mpr (Or.inl ?_)
      rw [List.mem_filter]
      exact ⟨by simp, by simp [hcol]⟩
  · simp [task_has_markdown, upsertStr, lookupStr, emptyStore]

/-- C4: submitting byte-identical content a second time — after the
first submission on a fresh system was processed to done, with its
primary output written — yields a cache hit whose task id is the first
task's id, dispatches no background job, and leaves the registry
unchanged. -/
theorem c4_idempotent (metaTitle : List Nat → Option String)
    (engine : List Nat → EngineOut) (fn : String) (b : List Nat)
    (id1 id2 : String) (t0 t1 t2 : Nat)
    (docName md : String) (assets : List (String × String))
    (hfn : ".pdf".toList.isSuffixOf (fn.toList.map lowerChar) = true)
    (hb : b ≠ [])
    (heng : engine b = .ok docName md assets) :
    convert_pdf metaTitle fn b id2 t2
        (process_conversion engine id1 b (get_pdf_hash b) t1
          (convert_pdf metaTitle fn b id1 t0 emptyDB emptyStore).db emptyStore).1
        (process_conversion engine id1 b (get_pdf_hash b) t1
          (convert_pdf metaTitle fn b id1 t0 emptyDB emptyStore).db emptyStore).2 =
      ⟨.ok ⟨id1, "done", "Found cached conversion result", true⟩, none,
       (process_conversion engine id1 b (get_pdf_hash b) t1
          (convert_pdf metaTitle fn b id1 t0 emptyDB emptyStore).db emptyStore).1⟩ := by
  obtain ⟨hall, hhash, -, hmd⟩ :=
    first_flow_facts metaTitle engine fn b id1 t0 t1 docName md assets hfn hb heng
  exact convert_pdf_hit_hash metaTitle fn b id2 t2 _ _ id1 hfn hb hall hhash hmd

/-- C4 (witness): byte-identical resubmission evaluated on concrete
oracles, bytes and task ids. -/
theorem c4_witness :
    (".pdf".toList.isSuffixOf ("a.pdf".toList.map lowerChar) = true) ∧
    (([1] : List Nat) ≠ []) ∧
    (engW [1] = .ok "Doc" "body" []) ∧
    convert_pdf (fun _ => none) "a.pdf" [1] "t2" 2
        (process_conversion engW "t1" [1] (get_pdf_hash [1]) 1
          (convert_pdf (fun _ => none) "a.pdf" [1] "t1" 0 emptyDB emptyStore).db
          emptyStore).1
        (process_conversion engW "t1" [1] (get_pdf_hash [1]) 1
          (convert_pdf (fun _ => none) "a.pdf" [1] "t1" 0 emptyDB emptyStore).db
          emptyStore).2 =
      ⟨.ok ⟨"t1", "done", "Found cached conversion result", true⟩, none,
       (process_conversion engW "t1" [1] (get_pdf_hash [1]) 1
          (convert_pdf (fun _ => none) "a.pdf" [1] "t1" 0 emptyDB emptyStore).db
          emptyStore).1⟩ :=
  ⟨by decide, by decide, rfl,
   c4_idempotent (fun _ => none) engW "a.pdf" [1] "t1" "t2" 0 1 2 "Doc" "body" []
     (by decide) (by decide) rfl⟩

set_option maxRecDepth 100000 in
/-- C3 (counterexample): bytes `[1]` and `[2]` share the extractable
metadata title `"Report"`; the first submission completes as task `t1`
(status done, output present), yet resubmitting `[2]` misses the cache
and starts a new pending task `t2` — because the cache stores the
engine's document name (`"document"`), not the metadata title used for
lookup. -/
theorem c3_counterexample :
    (metaTX [1] = some "Report" ∧ metaTX [2] = some "Report") ∧
    ((get_task "t1" (process_conversion engX "t1" [1] (get_pdf_hash [1]) 1
        (convert_pdf metaTX "a.pdf" [1] "t1" 0 emptyDB emptyStore).db
        emptyStore).1).map (fun r => r.status) = some "done") ∧
    task_has_markdown "t1" (process_conversion engX "t1" [1] (get_pdf_hash [1]) 1
        (convert_pdf metaTX "a.pdf" [1] "t1" 0 emptyDB emptyStore).db
        emptyStore).2 = true ∧
    (convert_pdf metaTX "a.pdf" [2] "t2" 2
        (process_conversion engX "t1" [1] (get_pdf_hash [1]) 1
          (convert_pdf metaTX "a.pdf" [1] "t1" 0 emptyDB emptyStore).db
          emptyStore).1
        (process_conversion engX "t1" [1] (get_pdf_hash [1]) 1
          (convert_pdf metaTX "a.pdf" [1] "t1" 0 emptyDB emptyStore).db
          emptyStore).2).resp =
      .ok ⟨"t2", "pending",
        "Conversion started. Check status with /api/status/{task_id}", false⟩ := by
  exact ⟨⟨by decide, by decide⟩, by decide, by decide, by decide⟩

/-- C3 (amended): a later submission is a cache hit against the first
task exactly when its extractable metadata title equals the title
recorded for the first task — the conversion engine's reported document
name (with the `"Untitled"` fallback) — not merely any title shared
with the first document's metadata. -/
theorem c3_title_hit (metaTitle : List Nat → Option String)
    (engine : List Nat → EngineOut) (fn fn2 : String) (b b2 : List Nat)
    (id1 id2 : String) (t0 t1 t2 : Nat)
    (docName md : String) (assets : List (String × String))
    (hfn : ".pdf".toList.isSuffixOf (fn.toList.map lowerChar) = true)
    (hb : b ≠ [])
    (heng : engine b = .ok docName md assets)
    (hfn2 : ".pdf".toList.isSuffixOf (fn2.toList.map lowerChar) = true)
    (hb2 : b2 ≠ [])
    (hmt2 : metaTitle b2 = some (if docName = "" then "Untitled" else docName)) :
    convert_pdf metaTitle fn2 b2 id2 t2
        (process_conversion engine id1 b (get_pdf_hash b) t1
          (convert_pdf metaTitle fn b id1 t0 emptyDB emptyStore).db emptyStore).1
        (process_conversion engine id1 b (get_pdf_hash b) t1
          (convert_pdf metaTitle fn b id1 t0 emptyDB emptyStore).db emptyStore).2 =
      ⟨.ok ⟨id1, "done", "Found cached conversion result", true⟩, none,
       (process_conversion engine id1 b (get_pdf_hash b) t1
          (convert_pdf metaTitle fn b id1 t0 emptyDB emptyStore).db emptyStore).1⟩ := by
  obtain ⟨hall, -, htitle, hmd⟩ :=
    first_flow_facts metaTitle engine fn b id1 t0 t1 docName md assets hfn hb heng
  have hTne : (if docName = "" then "Untitled" else docName) ≠ "" := by
    by_cases hd : docName = "" <;> simp [hd]
  exact convert_pdf_hit_title metaTitle fn2 b2 id2 t2 _ _ id1 _ hfn2 hb2 hmt2 hTne
    hall htitle hmd

/-- C3 (witness): the amended title-hit theorem evaluated on concrete
oracles where the metadata title of the resubmitted bytes equals the
engine's reported document name. -/
theorem c3_witness :
    (".pdf".toList.isSuffixOf ("a.pdf".toList.map lowerChar) = true) ∧
    (([1] : List Nat) ≠ []) ∧ (([2] : List Nat) ≠ []) ∧
    (engW [1] = .ok "Doc" "body" []) ∧
    (metaTW [2] = some (if "Doc" = "" then "Untitled" else "Doc")) ∧
    convert_pdf metaTW "a.pdf" [2] "t2" 2
        (process_conversion engW "t1" [1] (get_pdf_hash [1]) 1
          (convert_pdf metaTW "a.pdf" [1] "t1" 0 emptyDB emptyStore).db
          emptyStore).1
        (process_conversion engW "t1" [1] (get_pdf_hash [1]) 1
          (convert_pdf metaTW "a.pdf" [1] "t1" 0 emptyDB emptyStore).db
          emptyStore).2 =
      ⟨.ok ⟨"t1", "done", "Found cached conversion result", true⟩, none,
       (process_conversion engW "t1" [1] (get_pdf_hash [1]) 1
          (convert_pdf metaTW "a.pdf" [1] "t1" 0 emptyDB emptyStore).db
          emptyStore).1⟩ :=
  ⟨by decide, by decide, by decide, rfl, by decide,
   c3_title_hit metaTW engW "a.pdf" "a.pdf" [1] [2] "t1" "t2" 0 1 2 "Doc" "body" []
     (by decide) (by decide) rfl (by decide) (by decide) (by decide)⟩
